import Mathlib

/-!
Shallow embedding of the connect-examples-go Eliza demo server.

Embedded source:
* `cmd/demoserver/main.go` — the `elizaServer` handler methods `Say`,
  `Converse`, `Introduce`, the `main` startup logic, and the
  `RequestLoggingInterceptor` with its `wrappedStreamingHandlerConn`.
* `internal/gen/connectrpc/eliza/v1/elizav1connect/eliza.connect.go` — the
  generated `UnimplementedElizaServiceHandler`.

The chatbot logic of `internal/eliza` (`eliza.Reply`,
`eliza.GetIntroResponses`) is external to the handlers: it is a pure function
of its argument, so it is taken as a parameter (`reply : String → String ×
Bool`, `getIntroResponses : String → List String`) and every theorem
quantifies over it.

Modelling conventions:
* The inbound side of a stream is the finite list of messages the client
  sends before closing it cleanly; message sends by the server succeed.
* Caller cancellation is a predicate `cancel : Nat → Bool`: `cancel k` says
  whether, at the k-th point where the handler polls the context (the k-th
  `ctx.Err()` check in `Converse`, the k-th ticker wait in `Introduce`), the
  cancellation has already fired and is therefore the branch taken.
* `time.Duration` values are embedded as `Int` (Go int64 nanoseconds; no
  arithmetic overflows them here).
-/

namespace ElizaDemo

/-- Message `SayRequest`: the prompt sentence. -/
structure SayRequest where
  sentence : String
deriving DecidableEq, Repr

/-- Message `SayResponse`: the single reply sentence. -/
structure SayResponse where
  sentence : String
deriving DecidableEq, Repr

/-- Message `IntroduceRequest`: the caller name. -/
structure IntroduceRequest where
  name : String
deriving DecidableEq, Repr

/-- Error codes constructed by the embedded code. The generated
`UnimplementedElizaServiceHandler` uses `connect.CodeUnimplemented`. -/
inductive ConnectCode where
  | unimplemented
deriving DecidableEq, Repr

/-- A `connect.NewError` value: a code together with a message. -/
structure ConnectError where
  code : ConnectCode
  message : String
deriving DecidableEq, Repr

/-- Terminal errors of the streaming handlers in `main.go`.
`contextCanceled` models the non-nil `ctx.Err()` returned on cancellation. -/
inductive StreamErr where
  | contextCanceled
deriving DecidableEq, Repr

/-- Handler `elizaServer.Say` (main.go:53-61): invoke `eliza.Reply` on the request
sentence, discard the end-of-conversation flag, and answer the reply with a
nil error. -/
def sayHandler (reply : String → String × Bool) (req : SayRequest) :
    Except ConnectError SayResponse :=
  Except.ok ⟨(reply req.sentence).1⟩

/-- Outcome of a `Converse` call: the outbound replies in emission order and
the terminal error (`none` models a nil return). -/
structure ConverseOutcome where
  sent : List String
  err : Option StreamErr
deriving DecidableEq, Repr

/-- The loop of `elizaServer.Converse` (main.go:67-84). Each iteration first
checks `ctx.Err()` (`cancel k` for iteration counter `k`), then receives the
next inbound message (clean `io.EOF` once `inputs` is exhausted, making the
handler return nil), computes `reply`, sends the reply, and returns nil after
the send when the end-of-conversation flag is set. -/
def converseLoop (reply : String → String × Bool) (cancel : Nat → Bool) :
    List String → Nat → ConverseOutcome
  | [], k =>
    if cancel k then ⟨[], some StreamErr.contextCanceled⟩ else ⟨[], none⟩
  | sentence :: rest, k =>
    if cancel k then ⟨[], some StreamErr.contextCanceled⟩
    else
      let r := reply sentence
      if r.2 then ⟨[r.1], none⟩
      else
        let o := converseLoop reply cancel rest (k + 1)
        ⟨r.1 :: o.sent, o.err⟩

/-- Handler `elizaServer.Converse` (main.go:63-85): run the receive/reply loop from
iteration 0. -/
def converse (reply : String → String × Bool) (cancel : Nat → Bool)
    (inputs : List String) : ConverseOutcome :=
  converseLoop reply cancel inputs 0

/-- One event in the emission schedule of `Introduce`: a blocking wait on the
ticker channel (of the configured duration), or the send of one sentence. -/
inductive IntroEvent where
  | wait (d : Int)
  | send (sentence : String)
deriving DecidableEq, Repr

/-- Outcome of an `Introduce` call: the schedule of waits and sends, the
sentences actually delivered, and the terminal error. -/
structure IntroduceOutcome where
  events : List IntroEvent
  sent : List String
  err : Option StreamErr
deriving DecidableEq, Repr

/-- The loop of `elizaServer.Introduce` (main.go:97-114). The ticker exists
iff `streamDelay > 0`; when it exists, every iteration first blocks in the
`select` on `ctx.Done()` versus `ticker.C` — `cancel gap` says cancellation
wins the `gap`-th such wait — and only then sends the sentence. Without a
ticker each sentence is sent immediately and the context is never polled. -/
def introduceLoop (streamDelay : Int) (cancel : Nat → Bool) :
    List String → Nat → IntroduceOutcome
  | [], _ => ⟨[], [], none⟩
  | resp :: rest, gap =>
    if 0 < streamDelay then
      if cancel gap then ⟨[], [], some StreamErr.contextCanceled⟩
      else
        let o := introduceLoop streamDelay cancel rest (gap + 1)
        ⟨IntroEvent.wait streamDelay :: IntroEvent.send resp :: o.events,
          resp :: o.sent, o.err⟩
    else
      let o := introduceLoop streamDelay cancel rest (gap + 1)
      ⟨IntroEvent.send resp :: o.events, resp :: o.sent, o.err⟩

/-- Name substitution of `Introduce` (main.go:92-95): an empty name becomes
the placeholder "Anonymous User". -/
def substName (name : String) : String :=
  if name = "" then "Anonymous User" else name

/-- Handler `elizaServer.Introduce` (main.go:87-115): substitute the name, fetch the
introduction sentences, and run the emission loop from wait index 0. -/
def introduce (streamDelay : Int) (cancel : Nat → Bool)
    (getIntroResponses : String → List String) (req : IntroduceRequest) :
    IntroduceOutcome :=
  introduceLoop streamDelay cancel (getIntroResponses (substName req.name)) 0

/-- Outcome of the `main` startup decision (main.go:156-234): print usage on `--help`,
refuse a negative `--server-stream-delay` with a diagnostic before any
server is constructed, and otherwise serve on the configured address. -/
inductive StartupOutcome where
  | helpPrinted
  | configError (diagnostic : String)
  | serving (addr : String)
deriving DecidableEq, Repr

/-- Listening address (main.go:205-208): ":" ++ PORT when the environment
variable is non-empty, else "localhost:8082". -/
def serverAddr (portEnv : String) : String :=
  if portEnv = "" then "localhost:8082" else ":" ++ portEnv

/-- The control flow of `main` up to serving (main.go:156-234). -/
def startupMain (helpArg : Bool) (streamDelayArg : Int) (portEnv : String) :
    StartupOutcome :=
  if helpArg then StartupOutcome.helpPrinted
  else if streamDelayArg < 0 then
    StartupOutcome.configError "Server stream delay cannot be negative."
  else StartupOutcome.serving (serverAddr portEnv)

/-- RPC method names of the generated service (eliza.connect.go). -/
inductive ElizaMethod where
  | say
  | converse
  | introduce
deriving DecidableEq, Repr

/-- The unqualified method name used in the generated error messages. -/
def methodName : ElizaMethod → String
  | ElizaMethod.say => "Say"
  | ElizaMethod.converse => "Converse"
  | ElizaMethod.introduce => "Introduce"

/-- Stub `UnimplementedElizaServiceHandler.Say` (eliza.connect.go:174-176):
no response, a `CodeUnimplemented` error naming the method. -/
def unimplementedSay (_r : SayRequest) : Except ConnectError SayResponse :=
  Except.error ⟨ConnectCode.unimplemented,
    "connectrpc.eliza.v1.ElizaService.Say is not implemented"⟩

/-- Stub `UnimplementedElizaServiceHandler.Converse` (eliza.connect.go:178-180):
no messages sent, a `CodeUnimplemented` error naming the method. -/
def unimplementedConverse (_inputs : List String) :
    List String × Option ConnectError :=
  ([], some ⟨ConnectCode.unimplemented,
    "connectrpc.eliza.v1.ElizaService.Converse is not implemented"⟩)

/-- Stub `UnimplementedElizaServiceHandler.Introduce` (eliza.connect.go:182-184):
no messages sent, a `CodeUnimplemented` error naming the method. -/
def unimplementedIntroduce (_r : IntroduceRequest) :
    List String × Option ConnectError :=
  ([], some ⟨ConnectCode.unimplemented,
    "connectrpc.eliza.v1.ElizaService.Introduce is not implemented"⟩)

/-- A log record produced by `RequestLoggingInterceptor`: one per unary
request and one per message received on a stream. -/
inductive LogRecord (α : Type) where
  | unaryRequest (request : α)
  | streamingRequest (request : α)
deriving DecidableEq, Repr

/-- Method `RequestLoggingInterceptor.WrapUnary` (main.go:260-265): log the request,
then delegate to the wrapped handler unchanged. -/
def wrapUnary {Req Res : Type} (next : Req → Except ConnectError Res)
    (req : Req) : Except ConnectError Res × List (LogRecord Req) :=
  (next req, [LogRecord.unaryRequest req])

/-- Method `wrappedStreamingHandlerConn.Receive` (main.go:272-279): delegate to the
inner connection; on success log the received message, on error log
nothing; return the inner result either way. -/
def wrappedConnReceive {Msg : Type} (inner : Except ConnectError Msg) :
    Except ConnectError Msg × List (LogRecord Msg) :=
  match inner with
  | Except.error e => (Except.error e, [])
  | Except.ok v => (Except.ok v, [LogRecord.streamingRequest v])

/-- The successive `Receive` results seen through the wrapped connection,
with the log records produced along the way, for a given sequence of inner
connection results. -/
def wrappedConnReceiveSeq {Msg : Type} :
    List (Except ConnectError Msg) →
      List (Except ConnectError Msg) × List (LogRecord Msg)
  | [] => ([], [])
  | r :: rest =>
    let first := wrappedConnReceive r
    let tail := wrappedConnReceiveSeq rest
    (first.1 :: tail.1, first.2 ++ tail.2)

/-- Method `RequestLoggingInterceptor.WrapStreamingClient` (main.go:243-245):
returns the wrapped function unchanged. -/
def wrapStreamingClient {α : Type} (next : α) : α :=
  next

end ElizaDemo

namespace ElizaDemo

/-- Helper: with a positive delay and no cancellation, the emission loop
produces a wait followed by a send for every sentence, delivers all
sentences, and returns nil. -/
theorem introduceLoop_schedule_pos (streamDelay : Int) (cancel : Nat → Bool)
    (hpos : 0 < streamDelay) (hnc : ∀ k, cancel k = false) :
    ∀ (l : List String) (gap : Nat),
    introduceLoop streamDelay cancel l gap =
      ⟨l.flatMap (fun s => [IntroEvent.wait streamDelay, IntroEvent.send s]),
        l, none⟩
  | [], _ => by simp [introduceLoop]
  | s :: rest, gap => by
    simp [introduceLoop, hpos, hnc gap,
      introduceLoop_schedule_pos streamDelay cancel hpos hnc rest (gap + 1)]

/-- Helper: with a non-positive delay the emission loop sends every sentence
immediately, never waits, never polls cancellation, and returns nil. -/
theorem introduceLoop_no_delay (streamDelay : Int) (cancel : Nat → Bool)
    (hnp : ¬ 0 < streamDelay) :
    ∀ (l : List String) (gap : Nat),
    introduceLoop streamDelay cancel l gap =
      ⟨l.map IntroEvent.send, l, none⟩
  | [], _ => by simp [introduceLoop]
  | s :: rest, gap => by
    simp [introduceLoop, hnp,
      introduceLoop_no_delay streamDelay cancel hnp rest (gap + 1)]

/-- Helper: with a positive delay, when cancellation wins every ticker wait
from wait index i on, the emission loop started at wait index gap ≤ i
delivers exactly the first i - gap sentences and ends with the context
error. -/
theorem introduceLoop_cancel_cutoff (streamDelay : Int)
    (hpos : 0 < streamDelay) (i : Nat) :
    ∀ (l : List String) (gap : Nat), gap ≤ i → i - gap < l.length →
    introduceLoop streamDelay (fun k => decide (i ≤ k)) l gap =
      ⟨(l.take (i - gap)).flatMap
          (fun s => [IntroEvent.wait streamDelay, IntroEvent.send s]),
        l.take (i - gap), some StreamErr.contextCanceled⟩
  | [], gap => by
    intro hgi hlt
    simp at hlt
  | s :: rest, gap => by
    intro hgi hlt
    rcases eq_or_lt_of_le hgi with heq | hgap
    · have hzero : i - gap = 0 := by omega
      have hc : decide (i ≤ gap) = true := by simp [heq.ge]
      simp [introduceLoop, hpos, hc, hzero]
    · have hc : decide (i ≤ gap) = false := by simp; omega
      have hrec := introduceLoop_cancel_cutoff streamDelay hpos i rest (gap + 1)
        (by omega) (by simp at hlt ⊢; omega)
      have hsucc : i - gap = (i - (gap + 1)) + 1 := by omega
      simp [introduceLoop, hpos, hc, hrec, hsucc]

/-- C1 (counterexample): with delay 1, introduction sentences ["a", "b"] and
no cancellation, the emission schedule of Introduce begins with a wait:
there IS a delay before the first emitted sentence, contrary to the claim
that the delay occurs only between two consecutive sentences. -/
theorem introduce_delay_before_first_send :
    (introduce 1 (fun _ => false) (fun _ => ["a", "b"]) ⟨"x"⟩).events =
      [IntroEvent.wait 1, IntroEvent.send "a", IntroEvent.wait 1,
        IntroEvent.send "b"] ∧
    (introduce 1 (fun _ => false) (fun _ => ["a", "b"]) ⟨"x"⟩).events.head? =
      some (IntroEvent.wait 1) := by
  constructor <;> rfl

/-- C1 (amended): for every configured positive delay and every name, the
Introduce emission schedule has exactly one wait of the configured delay
immediately before EVERY emitted sentence — including the first — and no
wait after the last sentence. -/
theorem introduce_schedule_wait_before_each (streamDelay : Int)
    (cancel : Nat → Bool) (getIntroResponses : String → List String)
    (req : IntroduceRequest) (hpos : 0 < streamDelay)
    (hnc : ∀ k, cancel k = false) :
    (introduce streamDelay cancel getIntroResponses req).events =
      (getIntroResponses (substName req.name)).flatMap
        (fun s => [IntroEvent.wait streamDelay, IntroEvent.send s]) := by
  unfold introduce
  rw [introduceLoop_schedule_pos streamDelay cancel hpos hnc]

/-- C1 (witness): the amended schedule shape at delay 2 and two sentences. -/
theorem introduce_schedule_wait_before_each_witness :
    (introduce 2 (fun _ => false) (fun _ => ["a", "b"]) ⟨"x"⟩).events =
      (["a", "b"] : List String).flatMap
        (fun s => [IntroEvent.wait 2, IntroEvent.send s]) :=
  introduce_schedule_wait_before_each 2 (fun _ => false) (fun _ => ["a", "b"])
    ⟨"x"⟩ (by decide) (fun _ => rfl)

/-- C5: with a positive configured delay, if the caller's cancellation fires
strictly between the emission of message i and message i+1 — so it wins
every ticker wait from wait index i on — then exactly i messages are
delivered and the call ends with the context's cancellation error, for
every i below the length of the introduction sequence. -/
theorem introduce_cancellation_midstream (streamDelay : Int)
    (getIntroResponses : String → List String) (req : IntroduceRequest)
    (i : Nat) (hpos : 0 < streamDelay)
    (hi : i < (getIntroResponses (substName req.name)).length) :
    (introduce streamDelay (fun k => decide (i ≤ k)) getIntroResponses
        req).sent = (getIntroResponses (substName req.name)).take i ∧
    (introduce streamDelay (fun k => decide (i ≤ k)) getIntroResponses
        req).sent.length = i ∧
    (introduce streamDelay (fun k => decide (i ≤ k)) getIntroResponses
        req).err = some StreamErr.contextCanceled := by
  unfold introduce
  have h := introduceLoop_cancel_cutoff streamDelay hpos i
    (getIntroResponses (substName req.name)) 0 (Nat.zero_le i)
    (by simpa using hi)
  rw [h]
  simp
  omega

/-- C5 (witness): delay 1, three sentences, cancellation winning from wait
index 1 on: one sentence delivered, terminal cancellation error. -/
theorem introduce_cancellation_midstream_witness :
    (introduce 1 (fun k => decide (1 ≤ k)) (fun _ => ["a", "b", "c"])
        ⟨"x"⟩).sent = (["a", "b", "c"] : List String).take 1 ∧
    (introduce 1 (fun k => decide (1 ≤ k)) (fun _ => ["a", "b", "c"])
        ⟨"x"⟩).sent.length = 1 ∧
    (introduce 1 (fun k => decide (1 ≤ k)) (fun _ => ["a", "b", "c"])
        ⟨"x"⟩).err = some StreamErr.contextCanceled :=
  introduce_cancellation_midstream 1 (fun _ => ["a", "b", "c"]) ⟨"x"⟩ 1
    (by decide) (by decide)

/-- C10: with the flag's default zero delay, Introduce never waits and never
polls the caller's cancellation: for every cancellation behaviour and every
name it emits the entire introduction sequence (a schedule of sends only)
and returns without error. -/
theorem introduce_zero_delay_ignores_cancellation (cancel : Nat → Bool)
    (getIntroResponses : String → List String) (req : IntroduceRequest) :
    introduce 0 cancel getIntroResponses req =
      ⟨(getIntroResponses (substName req.name)).map IntroEvent.send,
        getIntroResponses (substName req.name), none⟩ := by
  unfold introduce
  rw [introduceLoop_no_delay 0 cancel (by decide)]

/-- C3: For the Introduce operation with an empty name, the run (schedule,
sentences, terminal result) is exactly the run for the name
"Anonymous User", for every configured delay, cancellation behaviour and
introduction-sequence function. -/
theorem introduce_empty_name_eq_anonymous (streamDelay : Int)
    (cancel : Nat → Bool) (getIntroResponses : String → List String) :
    introduce streamDelay cancel getIntroResponses ⟨""⟩ =
      introduce streamDelay cancel getIntroResponses ⟨"Anonymous User"⟩ := by
  unfold introduce substName
  rw [if_pos rfl, if_neg (by decide)]

/-- C4: For every input sentence, Say returns exactly one sentence and no
error; the sentence is the reply component of the external reply function,
and the end-of-conversation component never affects the response. -/
theorem say_returns_single_reply (reply : String → String × Bool)
    (req : SayRequest) :
    sayHandler reply req = Except.ok ⟨(reply req.sentence).1⟩ ∧
    ∀ endFlag : String → Bool,
      sayHandler (fun s => ((reply s).1, endFlag s)) req =
        sayHandler reply req :=
  ⟨rfl, fun _ => rfl⟩

/-- Helper: when no inbound message sets the end-of-conversation flag and
the context is never cancelled, the Converse loop replies to every message
in order and returns nil at EOF. -/
theorem converseLoop_no_end (reply : String → String × Bool) :
    ∀ (inputs : List String) (k : Nat),
    (∀ m ∈ inputs, (reply m).2 = false) →
    converseLoop reply (fun _ => false) inputs k =
      ⟨inputs.map (fun m => (reply m).1), none⟩
  | [], k => by
    intro hf
    simp [converseLoop]
  | sentence :: rest, k => by
    intro hf
    have h1 : (reply sentence).2 = false := hf sentence (by simp)
    have h2 := converseLoop_no_end reply rest (k + 1)
      (fun m hm => hf m (by simp [hm]))
    simp [converseLoop, h1, h2]

/-- Helper: when the first end-of-conversation flag arises at message `mid`,
the Converse loop replies to every earlier message and to `mid`, then
returns nil right after that send. -/
theorem converseLoop_end_at (reply : String → String × Bool) :
    ∀ (pre : List String) (mid : String) (post : List String) (k : Nat),
    (∀ m ∈ pre, (reply m).2 = false) → (reply mid).2 = true →
    converseLoop reply (fun _ => false) (pre ++ mid :: post) k =
      ⟨pre.map (fun m => (reply m).1) ++ [(reply mid).1], none⟩
  | [], mid, post, k => by
    intro hpre hmid
    simp [converseLoop, hmid]
  | s :: pre, mid, post, k => by
    intro hpre hmid
    have h1 : (reply s).2 = false := hpre s (by simp)
    have h2 := converseLoop_end_at reply pre mid post (k + 1)
      (fun m hm => hpre m (by simp [hm])) hmid
    simp [converseLoop, h1, h2]

/-- C2: with no cancellation, a Converse exchange whose inputs never set the
end-of-conversation flag yields exactly one reply per input, paired in input
order, with a clean nil termination; and when the flag first arises at
message `mid` (the K-th message, after `pre`), exactly the replies to `pre`
and to `mid` are sent — the final reply is sent before termination — and the
stream then ends cleanly with no further reply. -/
theorem converse_reply_per_input (reply : String → String × Bool)
    (inputs : List String) :
    ((∀ m ∈ inputs, (reply m).2 = false) →
      converse reply (fun _ => false) inputs =
        ⟨inputs.map (fun m => (reply m).1), none⟩) ∧
    (∀ (pre : List String) (mid : String) (post : List String),
      inputs = pre ++ mid :: post →
      (∀ m ∈ pre, (reply m).2 = false) →
      (reply mid).2 = true →
      converse reply (fun _ => false) inputs =
        ⟨pre.map (fun m => (reply m).1) ++ [(reply mid).1], none⟩) := by
  constructor
  · intro hf
    exact converseLoop_no_end reply inputs 0 hf
  · intro pre mid post heq hpre hmid
    subst heq
    exact converseLoop_end_at reply pre mid post 0 hpre hmid

/-- C2 (witness): a two-message exchange with no end flag gives two ordered
replies; a three-message exchange whose second message sets the flag gives
exactly two replies and a clean end. -/
theorem converse_reply_per_input_witness :
    converse (fun s => (s ++ "!", s == "bye")) (fun _ => false)
        ["hi", "yo"] = ⟨["hi!", "yo!"], none⟩ ∧
    converse (fun s => (s ++ "!", s == "bye")) (fun _ => false)
        ["hi", "bye", "z"] = ⟨["hi!", "bye!"], none⟩ := by
  constructor
  · exact (converse_reply_per_input (fun s => (s ++ "!", s == "bye"))
      ["hi", "yo"]).1 (by decide)
  · exact (converse_reply_per_input (fun s => (s ++ "!", s == "bye"))
      ["hi", "bye", "z"]).2 ["hi"] "bye" ["z"] rfl (by decide) (by decide)

/-- Helper: when cancellation is observed from iteration K on and no earlier
message ends the session, the Converse loop started at iteration n ≤ K
replies to exactly the first K - n remaining messages and returns the
context error. -/
theorem converseLoop_cancel_cutoff (reply : String → String × Bool) (K : Nat) :
    ∀ (inputs : List String) (n : Nat), n ≤ K → K - n ≤ inputs.length →
    (∀ m ∈ inputs.take (K - n), (reply m).2 = false) →
    converseLoop reply (fun k => decide (K ≤ k)) inputs n =
      ⟨(inputs.take (K - n)).map (fun m => (reply m).1),
        some StreamErr.contextCanceled⟩
  | [], n => by
    intro hn hlen hf
    simp only [List.length_nil, Nat.le_zero] at hlen
    have hc : decide (K ≤ n) = true := by
      rw [decide_eq_true_eq]; omega
    simp [converseLoop, hc, hlen]
  | sentence :: rest, n => by
    intro hn hlen hf
    rcases eq_or_lt_of_le hn with heq | hlt
    · have h0 : K - n = 0 := by omega
      have hc : decide (K ≤ n) = true := by
        rw [decide_eq_true_eq]; omega
      simp [converseLoop, hc, h0]
    · have hc : decide (K ≤ n) = false := by
        rw [decide_eq_false_iff_not]; omega
      have hsucc : K - n = (K - (n + 1)) + 1 := by omega
      have hf1 : (reply sentence).2 = false := by
        apply hf
        rw [hsucc]
        simp
      have hrec := converseLoop_cancel_cutoff reply K rest (n + 1) (by omega)
        (by simp only [List.length_cons] at hlen; omega)
        (by
          intro m hm
          apply hf
          rw [hsucc]
          simp [hm])
      simp [converseLoop, hc, hf1, hrec, hsucc]

/-- C6: if the caller's cancellation becomes observable at iteration K of a
Converse exchange still in progress (K ≤ number of inbound messages, none of
the first K ending the session), the service replies only to the first K
messages and returns the cancellation error as the terminal result instead
of completing normally or continuing. -/
theorem converse_cancellation_stops (reply : String → String × Bool)
    (inputs : List String) (K : Nat) (hK : K ≤ inputs.length)
    (hf : ∀ m ∈ inputs.take K, (reply m).2 = false) :
    converse reply (fun k => decide (K ≤ k)) inputs =
      ⟨(inputs.take K).map (fun m => (reply m).1),
        some StreamErr.contextCanceled⟩ := by
  have h := converseLoop_cancel_cutoff reply K inputs 0 (Nat.zero_le K)
    (by simpa using hK) (by simpa using hf)
  simpa using h

/-- C6 (witness): three inbound messages, cancellation observable from
iteration 2: exactly two replies, then the cancellation error. -/
theorem converse_cancellation_stops_witness :
    converse (fun s => (s ++ "!", s == "bye")) (fun k => decide (2 ≤ k))
        ["hi", "yo", "z"] =
      ⟨((["hi", "yo", "z"] : List String).take 2).map
          (fun m => ((fun s => (s ++ "!", s == "bye")) m).1),
        some StreamErr.contextCanceled⟩ :=
  converse_cancellation_stops (fun s => (s ++ "!", s == "bye"))
    ["hi", "yo", "z"] 2 (by decide) (by decide)

/-- C7: a negative parsed delay makes startup report the configuration
diagnostic and stop before any server is constructed or bound (the outcome
is never `serving`), while a non-negative delay never produces the
configuration error. -/
theorem negative_delay_fails_startup (streamDelayArg : Int)
    (portEnv : String) :
    (streamDelayArg < 0 →
      startupMain false streamDelayArg portEnv =
        StartupOutcome.configError "Server stream delay cannot be negative." ∧
      ∀ addr, startupMain false streamDelayArg portEnv ≠
        StartupOutcome.serving addr) ∧
    (0 ≤ streamDelayArg →
      ∀ diag, startupMain false streamDelayArg portEnv ≠
        StartupOutcome.configError diag) := by
  constructor
  · intro hneg
    refine ⟨by simp [startupMain, hneg], ?_⟩
    intro addr h
    simp [startupMain, hneg] at h
  · intro hge diag h
    have hnlt : ¬ streamDelayArg < 0 := by omega
    simp [startupMain, hnlt] at h

/-- C7 (witness): delay -1 yields the configuration error and never serves;
delay 0 does not yield the configuration error. -/
theorem negative_delay_fails_startup_witness :
    startupMain false (-1) "" =
      StartupOutcome.configError "Server stream delay cannot be negative." ∧
    startupMain false (-1) "" ≠ StartupOutcome.serving "localhost:8082" ∧
    startupMain false 0 "" ≠
      StartupOutcome.configError "Server stream delay cannot be negative." :=
  ⟨((negative_delay_fails_startup (-1) "").1 (by decide)).1,
    ((negative_delay_fails_startup (-1) "").1 (by decide)).2 "localhost:8082",
    (negative_delay_fails_startup 0 "").2 (by decide)
      "Server stream delay cannot be negative."⟩

/-- C8: the request-logging interceptor is a pure pass-through: the wrapped
unary handler returns exactly the inner handler's response and error; the
sequence of results received through the wrapped stream connection equals —
message for message, in order, errors included — the inner connection's
sequence; and the streaming-client wrapper is the identity. Only the log
records are added. -/
theorem interceptor_pass_through {Req Res Msg A : Type}
    (next : Req → Except ConnectError Res) (req : Req)
    (conn : List (Except ConnectError Msg)) (nextClient : A) :
    (wrapUnary next req).1 = next req ∧
    (wrappedConnReceiveSeq conn).1 = conn ∧
    wrapStreamingClient nextClient = nextClient := by
  refine ⟨rfl, ?_, rfl⟩
  induction conn with
  | nil => rfl
  | cons r rest ih =>
    cases r <;> simp [wrappedConnReceiveSeq, wrappedConnReceive, ih]

/-- C9: every method of the placeholder handler returns an error with the
unimplemented code whose message names that specific method, produces no
response payload and no streamed messages, and distinct methods carry
distinct names (hence distinct messages). -/
theorem unimplemented_handler_errors (req : SayRequest)
    (inputs : List String) (ireq : IntroduceRequest) :
    unimplementedSay req = Except.error ⟨ConnectCode.unimplemented,
        "connectrpc.eliza.v1.ElizaService." ++ methodName ElizaMethod.say ++
          " is not implemented"⟩ ∧
    unimplementedConverse inputs = ([], some ⟨ConnectCode.unimplemented,
        "connectrpc.eliza.v1.ElizaService." ++
          methodName ElizaMethod.converse ++ " is not implemented"⟩) ∧
    unimplementedIntroduce ireq = ([], some ⟨ConnectCode.unimplemented,
        "connectrpc.eliza.v1.ElizaService." ++
          methodName ElizaMethod.introduce ++ " is not implemented"⟩) ∧
    ∀ m n : ElizaMethod, m ≠ n → methodName m ≠ methodName n := by
  refine ⟨rfl, rfl, rfl, ?_⟩
  intro m n
  cases m <;> cases n <;> decide

/-- C9 (witness): the Say stub's concrete error and the distinctness of the
Say and Converse method names. -/
theorem unimplemented_handler_errors_witness :
    unimplementedSay ⟨"hi"⟩ = Except.error ⟨ConnectCode.unimplemented,
        "connectrpc.eliza.v1.ElizaService." ++ methodName ElizaMethod.say ++
          " is not implemented"⟩ ∧
    methodName ElizaMethod.say ≠ methodName ElizaMethod.converse :=
  ⟨(unimplemented_handler_errors ⟨"hi"⟩ [] ⟨"n"⟩).1,
    (unimplemented_handler_errors ⟨"hi"⟩ [] ⟨"n"⟩).2.2.2 ElizaMethod.say
      ElizaMethod.converse (by decide)⟩

end ElizaDemo
